import Mathlib

/-!
# Verification of the sreq HTTP client library

This file gives a shallow embedding, in Lean 4, of the parts of the sreq
library (github.com/winterssy/sreq) that its design specification talks
about, together with theorems settling the specification's claims.

The repository concatenates several historical revisions of the same small
library.  Each Lean definition carries a comment naming the source file and
revision it is translated from:
  * the container types `Values`/`Headers` and their serialization come from
    the second revision in `src/sreq.go` (version 0.6.0, the revision the
    tests exercise);
  * the dispatch pipeline (`Client.Do`, `doWithRetry`, `SetRetry`,
    `SetMultipart`) comes from the first revision in `src/client.go` and
    `src/request.go` (version 0.6.0);
  * the client-level/request-level precedence merge comes from the revision
    in `src/unnamed/part_001` (the revision whose `Client` owns default
    host/headers/cookies/auth/context); those definitions are prefixed `M`;
  * the body-caching `Response` comes from the revision embedded at the end
    of `src/request_test.go`; those definitions are prefixed `C`.

Go byte strings are modelled by Lean `String` where only text flows, and by
`List Nat` (byte lists) where raw bytes matter.  Go `time.Duration` and wall
clock time are modelled by `Nat` ticks.  Goroutine effects (the multipart
encoder) are modelled by their observable outcome: the value left in the
`errBackground` channel and the cancellation of the shared context.
-/

/-! ## Container values (src/sreq.go, second revision, version 0.6.0)

`Values`/`Headers` are Go maps `map[string]interface{}` whose values range
over `string`, `int`, `[]string`, `[]int` and `[]interface{}` of
string/int.  `MixElem.other` models an unsupported element of an
`[]interface{}` value (skipped by `convertStringIntArray`), and
`HVal.other` models an unsupported top-level dynamic type (projected to
nothing by `filter`). -/

/-- An element of a Go `[]interface{}` value. -/
inductive MixElem where
  | str (s : String)
  | int (n : Int)
  | other
  deriving DecidableEq, Repr

/-- A dynamic container value (the supported shapes of `map[string]interface{}`). -/
inductive HVal where
  | str (s : String)
  | int (n : Int)
  | strArr (l : List String)
  | intArr (l : List Int)
  | mixArr (l : List MixElem)
  | other
  deriving DecidableEq, Repr

/-- Go `strconv.Itoa`. -/
def itoa (n : Int) : String := toString n

/-- `convertIntArray` (src/sreq.go second revision). -/
def convertIntArray (v : List Int) : List String := v.map itoa

/-- `convertStringIntArray` (src/sreq.go second revision): unsupported
elements are skipped. -/
def convertStringIntArray (v : List MixElem) : List String :=
  v.foldr (fun e acc =>
    match e with
    | .str s => s :: acc
    | .int n => itoa n :: acc
    | .other => acc) []

/-- `filter` (src/sreq.go second revision): the normalized string-array
projection of a dynamic value; unsupported types project to nothing. -/
def filter : HVal → List String
  | .str s => [s]
  | .int n => [itoa n]
  | .strArr l => l
  | .intArr l => convertIntArray l
  | .mixArr l => convertStringIntArray l
  | .other => []

/-- `Values` (src/sreq.go second revision): a Go map from string keys to
dynamic values, modelled as an association list (a Go map has distinct
keys; theorems that need this take a `Nodup` hypothesis on the keys). -/
def Values : Type := List (String × HVal)

/-- Go map indexing `v[key]`: `none` models the zero-value (nil) interface
returned for a missing key. -/
def lookupVal (m : List (String × HVal)) (k : String) : Option HVal :=
  match m with
  | [] => none
  | p :: rest => if p.1 = k then some p.2 else lookupVal rest k

/-- `Values.Get` (src/sreq.go second revision): `filter(v[key])`; `filter`
of the nil interface (missing key) is nil. -/
def Values.Get (v : Values) (k : String) : List String :=
  match lookupVal v k with
  | some hv => filter hv
  | none => []

/-- `Values.Keys` (src/sreq.go second revision). -/
def Values.Keys (v : Values) : List String := v.map Prod.fst

/-- `sort.Strings` in `write` (src/sreq.go second revision).  Go sorts
byte-wise over UTF-8, which coincides with codepoint order, which is the
order of Lean's `LinearOrder String`. -/
def sortedKeys (ks : List String) : List String :=
  List.insertionSort (fun a b => a ≤ b) ks

/-- `writeValues` (src/sreq.go second revision): append the `key=value`
pairs for one key to the string builder, separated by `&` whenever the
builder is nonempty. -/
def writeValues (sb : String) (k : String) (vs : List String) : String :=
  vs.foldl (fun sb s => (if sb.length > 0 then sb ++ "&" else sb) ++ k ++ "=" ++ s) sb

/-- `write` (src/sreq.go second revision): fold a per-key callback over the
sorted keys. -/
def write (keys : List String) (get : String → List String)
    (callback : String → String → List String → String) : String :=
  (sortedKeys keys).foldl (fun sb k => callback sb k (get k)) ""

/-- `Values.Encode` (src/sreq.go second revision, lines 369-374). -/
def Values.Encode (v : Values) : String :=
  write (Values.Keys v) (Values.Get v) writeValues

/-! ### Specification-side descriptions of the encoding, and lemmas -/

/-- Join strings with `&` (the specification's "joined by `&`"). -/
def joinAmp : List String → String
  | [] => ""
  | [p] => p
  | p :: ps => p ++ "&" ++ joinAmp ps

/-- The `key=value` pairs of an encoded `Values`, one per element of each
key's normalized projection, in sorted key order, element order preserved. -/
def encodePairs (v : Values) : List String :=
  ((sortedKeys (Values.Keys v)).map
    (fun k => (Values.Get v k).map (fun s => k ++ "=" ++ s))).flatten

/-- Append pairs to a string builder with `&` separators (the common shape
of `writeValues`). -/
def addPairs (sb : String) (ps : List String) : String :=
  ps.foldl (fun sb p => (if sb.length > 0 then sb ++ "&" else sb) ++ p) sb

theorem strAppend_assoc (a b c : String) : a ++ b ++ c = a ++ (b ++ c) :=
  String.ext (by simp [String.data_append])

theorem strLength_append (a b : String) : (a ++ b).length = a.length + b.length := by
  show (a ++ b).data.length = a.data.length + b.data.length
  rw [String.data_append, List.length_append]

theorem writeValues_eq_addPairs (sb k : String) (vs : List String) :
    writeValues sb k vs = addPairs sb (vs.map (fun s => k ++ "=" ++ s)) := by
  induction vs generalizing sb with
  | nil => rfl
  | cons s rest ih =>
    have h1 : writeValues sb k (s :: rest) =
        writeValues ((if sb.length > 0 then sb ++ "&" else sb) ++ k ++ "=" ++ s) k rest := rfl
    have h2 : addPairs sb ((s :: rest).map (fun s => k ++ "=" ++ s)) =
        addPairs ((if sb.length > 0 then sb ++ "&" else sb) ++ (k ++ "=" ++ s))
          (rest.map (fun s => k ++ "=" ++ s)) := rfl
    have h3 : (if sb.length > 0 then sb ++ "&" else sb) ++ k ++ "=" ++ s =
        (if sb.length > 0 then sb ++ "&" else sb) ++ (k ++ "=" ++ s) :=
      String.ext (by simp [String.data_append])
    rw [h1, ih, h2, h3]

theorem addPairs_append (sb : String) (ps qs : List String) :
    addPairs (addPairs sb ps) qs = addPairs sb (ps ++ qs) := by
  unfold addPairs
  rw [List.foldl_append]

theorem addPairs_pos (sb : String) (ps : List String) (h : sb.length > 0) :
    addPairs sb ps = if ps.isEmpty then sb else sb ++ "&" ++ joinAmp ps := by
  induction ps generalizing sb with
  | nil => rfl
  | cons p rest ih =>
    have h1 : addPairs sb (p :: rest) =
        addPairs ((if sb.length > 0 then sb ++ "&" else sb) ++ p) rest := rfl
    rw [h1, if_pos h]
    have hlen : (sb ++ "&" ++ p).length > 0 := by
      rw [strLength_append, strLength_append]
      omega
    rw [ih _ hlen]
    cases rest with
    | nil => simp [joinAmp]
    | cons q qs =>
      simp only [List.isEmpty_cons, Bool.false_eq_true, if_false]
      refine String.ext ?_
      simp [String.data_append, joinAmp]

theorem addPairs_empty_builder (ps : List String)
    (h : ∀ p ∈ ps, p.length > 0) : addPairs "" ps = joinAmp ps := by
  cases ps with
  | nil => rfl
  | cons p rest =>
    have hp : p.length > 0 := h p (by simp)
    have h1 : addPairs "" (p :: rest) =
        addPairs ((if ("" : String).length > 0 then "" ++ "&" else "") ++ p) rest := rfl
    have h2 : (if ("" : String).length > 0 then "" ++ "&" else "") ++ p = p := by
      simp
    rw [h1, h2, addPairs_pos p rest hp]
    cases rest with
    | nil => simp [joinAmp]
    | cons q qs => simp [joinAmp]

theorem pair_length_pos (k s : String) : (k ++ "=" ++ s).length > 0 := by
  rw [strLength_append, strLength_append]
  have : ("=" : String).length = 1 := rfl
  omega

theorem foldl_writeValues_eq_addPairs (ks : List String) (get : String → List String)
    (sb : String) :
    ks.foldl (fun sb k => writeValues sb k (get k)) sb =
      addPairs sb ((ks.map (fun k => (get k).map (fun s => k ++ "=" ++ s))).flatten) := by
  induction ks generalizing sb with
  | nil => rfl
  | cons k rest ih =>
    simp only [List.foldl_cons, List.map_cons, List.flatten_cons]
    rw [writeValues_eq_addPairs, ih, ← addPairs_append]

/-- The Go string-builder encoding equals the specification's description:
pairs in sorted key order, one per projected element, joined by `&`. -/
theorem Values.Encode_eq_joinAmp (v : Values) :
    Values.Encode v = joinAmp (encodePairs v) := by
  unfold Values.Encode write encodePairs
  rw [foldl_writeValues_eq_addPairs]
  apply addPairs_empty_builder
  intro p hp
  simp only [List.mem_flatten, List.mem_map] at hp
  obtain ⟨l, ⟨k, _, rfl⟩, hpl⟩ := hp
  obtain ⟨s, _, rfl⟩ := List.mem_map.mp hpl
  exact pair_length_pos k s

theorem lookupVal_perm {v₁ v₂ : List (String × HVal)} (h : v₁.Perm v₂) :
    (v₁.map Prod.fst).Nodup → ∀ k, lookupVal v₁ k = lookupVal v₂ k := by
  induction h with
  | nil => intro _ k; rfl
  | cons x h ih =>
    intro nd k
    simp only [List.map_cons, List.nodup_cons] at nd
    simp only [lookupVal]
    by_cases hx : x.1 = k
    · simp [hx]
    · simp only [if_neg hx]
      exact ih nd.2 k
  | swap x y l =>
    intro nd k
    simp only [List.map_cons, List.nodup_cons, List.mem_cons, not_or] at nd
    have hxy : y.1 ≠ x.1 := nd.1.1
    simp only [lookupVal]
    by_cases h1 : y.1 = k <;> by_cases h2 : x.1 = k
    · exact absurd (h1.trans h2.symm) hxy
    · simp [h1, h2]
    · simp [h1, h2]
    · simp [h1, h2]
  | trans h₁ h₂ ih₁ ih₂ =>
    intro nd k
    rw [ih₁ nd k]
    exact ih₂ (((h₁.map Prod.fst).nodup_iff).mp nd) k

theorem sortedKeys_perm (ks : List String) : (sortedKeys ks).Perm ks :=
  List.perm_insertionSort _ ks

theorem sortedKeys_sorted (ks : List String) :
    (sortedKeys ks).Sorted (fun a b => a ≤ b) :=
  List.sorted_insertionSort _ ks

theorem sortedKeys_eq_of_perm {ks₁ ks₂ : List String} (h : ks₁.Perm ks₂) :
    sortedKeys ks₁ = sortedKeys ks₂ := by
  haveI : IsAntisymm String (fun a b => a ≤ b) := ⟨fun _ _ hab hba => le_antisymm hab hba⟩
  exact List.eq_of_perm_of_sorted
    ((sortedKeys_perm ks₁).trans (h.trans (sortedKeys_perm ks₂).symm))
    (sortedKeys_sorted ks₁) (sortedKeys_sorted ks₂)

theorem foldl_congr_get {ks : List String} {get₁ get₂ : String → List String}
    (h : ∀ k, get₁ k = get₂ k) (sb : String) :
    ks.foldl (fun sb k => writeValues sb k (get₁ k)) sb =
      ks.foldl (fun sb k => writeValues sb k (get₂ k)) sb := by
  induction ks generalizing sb with
  | nil => rfl
  | cons k rest ih => simp only [List.foldl_cons, h k, ih]

/-- Claim C7.  `Values.Encode` is insertion-order independent, emits keys in
ascending lexicographic order, and contributes one `key=value` pair per
element of each key's normalized string-array projection, joined by `&`,
preserving element order within a key (`encodePairs` lists the pairs per
sorted key via an order-preserving `map`). -/
theorem claim_C7 :
    (∀ v₁ v₂ : Values, v₁.Perm v₂ → (v₁.map Prod.fst).Nodup →
      Values.Encode v₁ = Values.Encode v₂) ∧
    (∀ v : Values, Values.Encode v = joinAmp (encodePairs v)) ∧
    (∀ v : Values, (sortedKeys (Values.Keys v)).Sorted (fun a b => a ≤ b) ∧
      (sortedKeys (Values.Keys v)).Perm (Values.Keys v)) := by
  refine ⟨?_, Values.Encode_eq_joinAmp, fun v => ⟨sortedKeys_sorted _, sortedKeys_perm _⟩⟩
  intro v₁ v₂ hperm nd
  unfold Values.Encode write
  have hkeys : sortedKeys (Values.Keys v₁) = sortedKeys (Values.Keys v₂) :=
    sortedKeys_eq_of_perm (hperm.map Prod.fst)
  rw [hkeys]
  exact foldl_congr_get (fun k => by
    unfold Values.Get
    rw [lookupVal_perm hperm nd k]) _

/-- Witness for C7 at concrete inputs: two insertion orders of the same map
encode identically, and the encoding matches the specification shape. -/
theorem claim_C7_witness :
    Values.Encode [("b", HVal.str "2"), ("a", HVal.intArr [10, 7])] =
      Values.Encode [("a", HVal.intArr [10, 7]), ("b", HVal.str "2")] ∧
    Values.Encode [("b", HVal.str "2"), ("a", HVal.intArr [10, 7])] =
      joinAmp (encodePairs [("b", HVal.str "2"), ("a", HVal.intArr [10, 7])]) :=
  ⟨claim_C7.1 _ _ (by decide) (by decide), claim_C7.2.1 _⟩

/-! ## Errors (src/errors.go, first revision)

`SError` models Go `error` values as they occur in the library: the two
wrapped categories `ClientError`/`RequestError`, the context errors
returned by `ctx.Err()`, and opaque messages for everything else
(`errors.New` sentinels, transport failures, interceptor errors). -/

/-- A Go error value. -/
inductive SError where
  | clientError (cause : String) (err : SError)
  | requestError (cause : String) (err : SError)
  | canceled
  | deadlineExceeded
  | msg (s : String)
  deriving DecidableEq, Repr

/-- `ErrNilContext` (src/errors.go). -/
def ErrNilContext : SError := .msg "nil Context"

/-- `ErrRetryMaxDurationExceeded` (src/errors.go): declared sentinel for
retry exhaustion (not produced by the 0.6.0 attempt loop). -/
def ErrRetryMaxDurationExceeded : SError := .msg "sreq: retry max duration exceeded"

/-! ## Contexts and time

Wall-clock time and `time.Duration` are `Nat` ticks.  A context is modelled
by the absolute time at which it becomes done (none = never) together with
the error its `Err()` method reports once done. -/

/-- A Go `context.Context`, reduced to its observable cancellation
behavior. -/
structure Ctx where
  deadline : Option Nat
  err : SError
  deriving DecidableEq, Repr

/-- The background context: never done. -/
def Ctx.background : Ctx := ⟨none, .canceled⟩

/-- `ctx.Err() != nil` at time `t`. -/
def ctxDone (c : Ctx) (t : Nat) : Bool :=
  match c.deadline with
  | some d => d ≤ t
  | none => false

/-- `context.WithTimeout(ctx, timeout)` taken at time `now`: the deadline
is narrowed to `now + timeout` when that is sooner; a firing timeout
reports deadline-exceeded. -/
def Ctx.withTimeout (c : Ctx) (now timeout : Nat) : Ctx :=
  match c.deadline with
  | none => ⟨some (now + timeout), .deadlineExceeded⟩
  | some d => if now + timeout < d then ⟨some (now + timeout), .deadlineExceeded⟩ else c

/-- `context.WithCancel` whose cancel function is invoked at time `tc`:
the context becomes done at `tc` (or earlier if it already was), reporting
`context.Canceled` when the cancellation fires first. -/
def Ctx.cancelAt (c : Ctx) (tc : Nat) : Ctx :=
  match c.deadline with
  | none => ⟨some tc, .canceled⟩
  | some d => if tc < d then ⟨some tc, .canceled⟩ else c

/-! ## The dispatch pipeline (src/client.go and src/request.go, first
revision, version 0.6.0) -/

/-- The raw HTTP response, reduced to what retry conditions inspect. -/
structure RawResp where
  statusCode : Nat
  cookies : List (String × String)
  deriving DecidableEq, Repr

/-- `Response` as the attempt loop sees it (src/response.go style):
`RawResponse` and the sticky `Err`. -/
structure SResp where
  raw : Option RawResp
  err : Option SError
  deriving DecidableEq, Repr

/-- The outcome of one `c.do(req.RawRequest)` exchange: how long the
attempt took and what it produced.  The transport is a function from the
attempt index to such an outcome. -/
structure Exchange where
  dur : Nat
  raw : Option RawResp
  err : Option SError

/-- Observable events of one `Client.Do` dispatch, in order. -/
inductive Event where
  | reqInterceptor (j : Nat)
  | exchange (i : Nat)
  | cond (i j : Nat)
  | sleep (i : Nat)
  | sleepAborted (i : Nat)
  | respInterceptor (j : Nat)
  deriving DecidableEq, Repr

/-- `retry` (src/sreq.go): attempts count, inter-attempt delay, ordered
retry predicates.  `attempts` is a `Nat`; the setters only ever store
values `> 1`. -/
structure Retry where
  attempts : Nat
  delay : Nat
  conditions : List (SResp → Bool)

/-- `defaultRetry` (src/client.go first revision, lines 555-557). -/
def defaultRetry : Retry := { attempts := 1, delay := 0, conditions := [] }

/-- The inner predicate loop of `doWithRetry` (src/client.go first
revision, lines 587-593): `shouldRetry` starts as `resp.Err != nil`, each
condition overwrites it, and the loop breaks at the first `true`.  Returns
the final `shouldRetry` and how many conditions were evaluated. -/
def evalConds : List (SResp → Bool) → Bool → SResp → Bool × Nat
  | [], init, _ => (init, 0)
  | c :: cs, _, r =>
      if c r then (true, 1)
      else
        let p := evalConds cs false r
        (p.1, p.2 + 1)

/-- `Request` (src/request.go first revision): sticky error, per-request
timeout and retry policy, the `errBackground` channel (modelled by the
error it currently buffers, if any), and the raw request's context.  The
raw message body and header fields play no role in the attempt-loop
claims and are elided. -/
structure Request where
  err : Option SError
  timeout : Nat
  retry : Option Retry
  errBackground : Option SError
  ctx : Ctx

/-- `Client` (src/client.go first revision): sticky error, interceptor
lists, retry policy, and the transport (`RawClient`), modelled as the
per-attempt exchange oracle.  Interceptors are modelled by the error they
return (request mutation by interceptors is not needed by any claim). -/
structure Client where
  err : Option SError
  requestInterceptors : List (Request → Option SError)
  responseInterceptors : List (SResp → Option SError)
  retry : Option Retry
  net : Nat → Exchange

/-- The retry policy `doWithRetry` selects (src/client.go first revision,
lines 568-573): request-level, else client-level, else `defaultRetry`. -/
def effectiveRetry (c : Client) (req : Request) : Retry :=
  match req.retry with
  | some r => r
  | none =>
      match c.retry with
      | some r => r
      | none => defaultRetry

/-- The attempt loop of `doWithRetry` (src/client.go first revision, lines
575-606).  `i` is the loop index, `r` the number of attempts remaining
after this one (`r = 0` iff `i == retry.attempts-1`), `t` the current
time.  Each iteration: exchange; if the context is done, take the
background error if buffered, else the context error, and stop; otherwise
evaluate the retry conditions; stop if no retry is wanted or this was the
last attempt; otherwise sleep `delay`, racing the context. -/
def doRetryAux (net : Nat → Exchange) (ctx : Ctx) (bg : Option SError)
    (conds : List (SResp → Bool)) (delay : Nat) :
    Nat → Nat → Nat → SResp × List Event
  | _, 0, _ => (⟨none, none⟩, [])
  | i, r + 1, t =>
      let ex := net i
      let t1 := t + ex.dur
      let resp : SResp := ⟨ex.raw, ex.err⟩
      if ctxDone ctx t1 then
        ({ resp with err := some (bg.getD ctx.err) }, [Event.exchange i])
      else
        let ev := evalConds conds resp.err.isSome resp
        let condEvents := (List.range ev.2).map (Event.cond i)
        if ev.1 = false ∨ r = 0 then
          (resp, Event.exchange i :: condEvents)
        else
          if ctxDone ctx (t1 + delay) then
            ({ resp with err := some ctx.err },
              Event.exchange i :: condEvents ++ [Event.sleepAborted i])
          else
            let rest := doRetryAux net ctx bg conds delay (i + 1) r (t1 + delay)
            (rest.1, Event.exchange i :: condEvents ++ Event.sleep i :: rest.2)

/-- `Client.doWithRetry` (src/client.go first revision, lines 559-606),
started at time `t0`: narrow the request context by the request timeout
when set, select the effective retry policy, and run the attempt loop. -/
def Client.doWithRetry (c : Client) (req : Request) (t0 : Nat) : SResp × List Event :=
  let ctx := if req.timeout > 0 then req.ctx.withTimeout t0 req.timeout else req.ctx
  let retry := effectiveRetry c req
  doRetryAux c.net ctx req.errBackground retry.conditions retry.delay 0 retry.attempts t0

/-- `Client.onBeforeRequest` (src/client.go first revision, lines
534-543): run request interceptors in order, stopping at the first
error. -/
def onBeforeRequest : List (Request → Option SError) → Request → Nat →
    Option SError × List Event
  | [], _, _ => (none, [])
  | f :: fs, req, j =>
      match f req with
      | some e => (some e, [Event.reqInterceptor j])
      | none =>
          let rest := onBeforeRequest fs req (j + 1)
          (rest.1, Event.reqInterceptor j :: rest.2)

/-- `Client.onAfterResponse` (src/client.go first revision, lines
545-553): run response interceptors in order; the first error overwrites
the response error and stops the run. -/
def onAfterResponse : List (SResp → Option SError) → SResp → Nat →
    SResp × List Event
  | [], resp, _ => (resp, [])
  | f :: fs, resp, j =>
      match f resp with
      | some e => ({ resp with err := some e }, [Event.respInterceptor j])
      | none =>
          let rest := onAfterResponse fs resp (j + 1)
          (rest.1, Event.respInterceptor j :: rest.2)

/-- `Client.Do` (src/client.go first revision, lines 510-532): build-check
short-circuits on the client then the request sticky error, then request
interceptors, the attempt loop, and response interceptors. -/
def Client.Do (c : Client) (req : Request) (t0 : Nat) : SResp × List Event :=
  if c.err.isSome then ({ raw := none, err := c.err }, [])
  else if req.err.isSome then ({ raw := none, err := req.err }, [])
  else
    match onBeforeRequest c.requestInterceptors req 0 with
    | (some e, evs) => ({ raw := none, err := some e }, evs)
    | (none, evs) =>
        let dr := c.doWithRetry req t0
        let ar := onAfterResponse c.responseInterceptors dr.1 0
        (ar.1, evs ++ dr.2 ++ ar.2)

/-- `Client.SetRetry` (src/client.go first revision, lines 340-354): a
no-op on a sticky error or when `attempts ≤ 1`.  Go's `int` argument is
modelled by `Int`. -/
def Client.SetRetry (c : Client) (attempts : Int) (delay : Nat)
    (conditions : List (SResp → Bool)) : Client :=
  if c.err.isSome then c
  else if attempts > 1 then
    { c with retry := some { attempts := attempts.toNat, delay := delay,
                             conditions := conditions } }
  else c

/-- `Request.SetRetry` (src/request.go first revision, lines 438-452). -/
def Request.SetRetry (req : Request) (attempts : Int) (delay : Nat)
    (conditions : List (SResp → Bool)) : Request :=
  if req.err.isSome then req
  else if attempts > 1 then
    { req with retry := some { attempts := attempts.toNat, delay := delay,
                               conditions := conditions } }
  else req

/-! ### Claims about the dispatch pipeline -/

/-- Claim C1.  If the Client carries a sticky configuration error, or
(the client is clean and) the Request carries a sticky build error,
`Client.Do` returns a Response whose `Err` is exactly that sticky error
and the dispatch trace is empty: no request interceptor, no attempt-loop
event, no exchange, and no response interceptor is executed. -/
theorem claim_C1 (c : Client) (req : Request) (t0 : Nat) :
    (∀ e, c.err = some e →
      Client.Do c req t0 = ({ raw := none, err := some e }, [])) ∧
    (∀ e, c.err = none → req.err = some e →
      Client.Do c req t0 = ({ raw := none, err := some e }, [])) := by
  constructor
  · intro e he
    simp [Client.Do, he]
  · intro e hc he
    simp [Client.Do, hc, he]

/-- Witness for C1: a client with a sticky error and a request interceptor
that would fail; the dispatch short-circuits with the sticky error and an
empty trace. -/
theorem claim_C1_witness :
    Client.Do
      { err := some (SError.clientError "SetProxy" (SError.msg "bad transport")),
        requestInterceptors := [fun _ => some (SError.msg "interceptor ran")],
        responseInterceptors := [fun _ => some (SError.msg "interceptor ran")],
        retry := none,
        net := fun _ => { dur := 1, raw := some { statusCode := 200, cookies := [] }, err := none } }
      { err := none, timeout := 0, retry := none, errBackground := none,
        ctx := Ctx.background } 0 =
      ({ raw := none, err := some (SError.clientError "SetProxy" (SError.msg "bad transport")) }, []) :=
  (claim_C1 _ _ 0).1 _ rfl

theorem evalConds_all_false (conds : List (SResp → Bool)) (resp : SResp)
    (h : ∀ c ∈ conds, c resp = false) :
    (evalConds conds false resp).1 = false := by
  induction conds with
  | nil => rfl
  | cons c cs ih =>
    have hc := h c (by simp)
    simp only [evalConds, hc, Bool.false_eq_true, if_false]
    exact ih (fun d hd => h d (by simp [hd]))

/-- Claim C5.  (1) If the first `j` conditions reject and condition `j`
accepts, the inner loop returns `true` having evaluated exactly the first
`j+1` conditions, in order.  (2) If the response has no error and no
condition accepts, `shouldRetry` is `false`.  (3) Whenever (after an
exchange whose context is live) `shouldRetry` is `false` or this was the
last allowed attempt, the attempt loop stops and returns the current
exchange's response, its trace showing no further exchange. -/
theorem claim_C5 :
    (∀ (conds : List (SResp → Bool)) (init : Bool) (resp : SResp) (j : Nat)
        (hj : j < conds.length),
        (∀ i, ∀ hi : i < j, (conds.get ⟨i, Nat.lt_trans hi hj⟩) resp = false) →
        (conds.get ⟨j, hj⟩) resp = true →
        evalConds conds init resp = (true, j + 1)) ∧
    (∀ (conds : List (SResp → Bool)) (resp : SResp),
        resp.err = none → (∀ c ∈ conds, c resp = false) →
        (evalConds conds resp.err.isSome resp).1 = false) ∧
    (∀ (net : Nat → Exchange) (ctx : Ctx) (bg : Option SError)
        (conds : List (SResp → Bool)) (delay i r t : Nat),
        ctxDone ctx (t + (net i).dur) = false →
        ((evalConds conds (net i).err.isSome ⟨(net i).raw, (net i).err⟩).1 = false ∨ r = 0) →
        doRetryAux net ctx bg conds delay i (r + 1) t =
          (⟨(net i).raw, (net i).err⟩,
            Event.exchange i ::
              (List.range (evalConds conds (net i).err.isSome
                ⟨(net i).raw, (net i).err⟩).2).map (Event.cond i))) := by
  refine ⟨?_, ?_, ?_⟩
  · intro conds
    induction conds with
    | nil =>
      intro init resp j hj
      exact absurd hj (by simp)
    | cons c cs ih =>
      intro init resp j hj hbefore hj_true
      cases j with
      | zero =>
        have : c resp = true := hj_true
        simp [evalConds, this]
      | succ j =>
        have hc : c resp = false := hbefore 0 (Nat.succ_pos j)
        have hrec := ih false resp j (Nat.lt_of_succ_lt_succ hj)
          (fun i hi => hbefore (i + 1) (Nat.succ_lt_succ hi))
          hj_true
        simp only [evalConds, hc, Bool.false_eq_true, if_false, hrec]
  · intro conds resp herr hall
    rw [herr]
    exact evalConds_all_false conds resp hall
  · intro net ctx bg conds delay i r t hlive hstop
    simp only [doRetryAux, hlive, Bool.false_eq_true, if_false]
    rw [if_pos hstop]

/-- Witness for C5: two rejecting conditions then an accepting one
short-circuit at index 2; a clean response with all-false conditions does
not retry; and a single-attempt loop returns the exchange response. -/
theorem claim_C5_witness :
    evalConds [fun _ => false, fun _ => false, fun _ => true, fun _ => false]
        true { raw := none, err := none } = (true, 3) ∧
    (evalConds [fun _ => false] (none : Option SError).isSome
        { raw := none, err := none }).1 = false ∧
    doRetryAux (fun _ => { dur := 1, raw := none, err := none }) Ctx.background
        none [] 0 0 (0 + 1) 0 =
      ({ raw := none, err := none }, [Event.exchange 0]) := by
  refine ⟨?_, ?_, ?_⟩
  · exact claim_C5.1 _ true _ 2 (by simp)
      (fun i hi => by interval_cases i <;> rfl) rfl
  · exact claim_C5.2.1 [fun _ => false] { raw := none, err := none } rfl
      (by intro c hc; rw [List.mem_singleton] at hc; subst hc; rfl)
  · exact claim_C5.2.2 _ _ none [] 0 0 0 0 rfl (Or.inr rfl)

/-- An event is an HTTP exchange. -/
def isExchange : Event → Bool
  | .exchange _ => true
  | _ => false

/-- An event is a retry-condition evaluation. -/
def isCondEval : Event → Bool
  | .cond _ _ => true
  | _ => false

theorem singleAttempt_trace (c : Client) (req : Request) (t0 : Nat)
    (h : effectiveRetry c req = defaultRetry) :
    ((c.doWithRetry req t0).2.countP isExchange = 1) ∧
    ((c.doWithRetry req t0).2.countP isCondEval = 0) := by
  unfold Client.doWithRetry
  rw [h]
  show (doRetryAux c.net _ req.errBackground [] 0 0 1 t0).2.countP isExchange = 1 ∧
    (doRetryAux c.net _ req.errBackground [] 0 0 1 t0).2.countP isCondEval = 0
  unfold doRetryAux
  by_cases hd : ctxDone (if req.timeout > 0 then req.ctx.withTimeout t0 req.timeout else req.ctx)
      (t0 + (c.net 0).dur)
  · simp [hd, isExchange, isCondEval, List.countP_cons]
  · simp [hd, evalConds, isExchange, isCondEval, List.countP_cons]

/-- Claim C6.  With no retry policy at either level the effective policy
is `defaultRetry`: exactly one attempt, no delay, and the dispatched
attempt loop performs exactly one HTTP exchange; when the request sets a
policy it is used (in particular when both levels set one). -/
theorem claim_C6 (c : Client) (req : Request) (t0 : Nat) :
    (req.retry = none → c.retry = none →
      effectiveRetry c req = defaultRetry ∧
      defaultRetry.attempts = 1 ∧ defaultRetry.delay = 0 ∧
      (c.doWithRetry req t0).2.countP isExchange = 1) ∧
    (∀ rr, req.retry = some rr → effectiveRetry c req = rr) := by
  constructor
  · intro hr hc
    have heff : effectiveRetry c req = defaultRetry := by
      simp [effectiveRetry, hr, hc]
    exact ⟨heff, rfl, rfl, (singleAttempt_trace c req t0 heff).1⟩
  · intro rr hr
    simp [effectiveRetry, hr]

/-- Witness for C6: a concrete client/request pair with no retry policy
performs one exchange; a request-level policy overrides a client-level
one. -/
theorem claim_C6_witness :
    (effectiveRetry
        { err := none, requestInterceptors := [], responseInterceptors := [],
          retry := none, net := fun _ => { dur := 1, raw := none, err := none } }
        { err := none, timeout := 0, retry := none, errBackground := none,
          ctx := Ctx.background } = defaultRetry) ∧
    (effectiveRetry
        { err := none, requestInterceptors := [], responseInterceptors := [],
          retry := some { attempts := 3, delay := 5, conditions := [] },
          net := fun _ => { dur := 1, raw := none, err := none } }
        { err := none, timeout := 0,
          retry := some { attempts := 2, delay := 7, conditions := [] },
          errBackground := none, ctx := Ctx.background } =
      { attempts := 2, delay := 7, conditions := [] }) :=
  ⟨((claim_C6 _ _ 0).1 rfl rfl).1, (claim_C6 _ _ 0).2 _ rfl⟩

/-- Claim C10.  `SetRetry` with `attempts ≤ 1` leaves the stored retry
policy unchanged on both the Client and the Request (still `none` when
none was set before); consequently, when neither level had a policy, the
effective policy after such a call is `defaultRetry` and a dispatch
evaluates no retry condition and performs a single exchange. -/
theorem claim_C10 (c : Client) (req : Request) (attempts : Int) (delay : Nat)
    (conds : List (SResp → Bool)) (t0 : Nat) (hatt : attempts ≤ 1) :
    (Client.SetRetry c attempts delay conds).retry = c.retry ∧
    (Request.SetRetry req attempts delay conds).retry = req.retry ∧
    (c.retry = none → req.retry = none →
      effectiveRetry (Client.SetRetry c attempts delay conds)
          (Request.SetRetry req attempts delay conds) = defaultRetry ∧
      ((Client.SetRetry c attempts delay conds).doWithRetry
          (Request.SetRetry req attempts delay conds) t0).2.countP isCondEval = 0 ∧
      ((Client.SetRetry c attempts delay conds).doWithRetry
          (Request.SetRetry req attempts delay conds) t0).2.countP isExchange = 1) := by
  have hna : ¬ (attempts > 1) := by omega
  have hc : Client.SetRetry c attempts delay conds =
      if c.err.isSome then c else c := by
    unfold Client.SetRetry
    by_cases hce : c.err.isSome <;> simp [hce, hna]
  have hr : Request.SetRetry req attempts delay conds =
      if req.err.isSome then req else req := by
    unfold Request.SetRetry
    by_cases hre : req.err.isSome <;> simp [hre, hna]
  have hc' : Client.SetRetry c attempts delay conds = c := by rw [hc]; simp
  have hr' : Request.SetRetry req attempts delay conds = req := by rw [hr]; simp
  refine ⟨by rw [hc'], by rw [hr'], ?_⟩
  intro hcr hrr
  rw [hc', hr']
  have heff : effectiveRetry c req = defaultRetry := by
    simp [effectiveRetry, hcr, hrr]
  exact ⟨heff, (singleAttempt_trace c req t0 heff).2, (singleAttempt_trace c req t0 heff).1⟩

/-- Witness for C10: `SetRetry` with `attempts = 1` (and a condition that
would always retry) stores nothing and a dispatch performs one exchange
and evaluates no condition. -/
theorem claim_C10_witness :
    (Client.SetRetry
        { err := none, requestInterceptors := [], responseInterceptors := [],
          retry := none, net := fun _ => { dur := 1, raw := none, err := none } }
        1 9 [fun _ => true]).retry = none ∧
    (Request.SetRetry
        { err := none, timeout := 0, retry := none, errBackground := none,
          ctx := Ctx.background } 1 9 [fun _ => true]).retry = none := by
  have h := claim_C10
    { err := none, requestInterceptors := [], responseInterceptors := [],
      retry := none, net := fun _ => { dur := 1, raw := none, err := none } }
    { err := none, timeout := 0, retry := none, errBackground := none,
      ctx := Ctx.background } 1 9 [fun _ => true] 0 (by decide)
  exact ⟨h.1, h.2.1⟩

/-- The attempt loop, run with a deadline context, an empty background
channel and an always-retry condition, ends with the context's error as
soon as the deadline `d` falls inside the remaining retry schedule
(`t < d ≤ t + r * delay`, `r` = remaining attempts after the current
one). -/
theorem ctx_beats_retry_aux (net : Nat → Exchange) (d delay : Nat) (e : SError) :
    ∀ r i t, t < d → d ≤ t + r * delay →
      (doRetryAux net ⟨some d, e⟩ none [fun _ => true] delay i (r + 1) t).1.err = some e := by
  intro r
  induction r with
  | zero =>
    intro i t h1 h2
    omega
  | succ r' ih =>
    intro i t h1 h2
    by_cases hd : ctxDone ⟨some d, e⟩ (t + (net i).dur)
    · simp [doRetryAux, hd]
    · have hlt : t + (net i).dur < d := by
        simp [ctxDone] at hd
        omega
      by_cases hsleep : ctxDone ⟨some d, e⟩ (t + (net i).dur + delay)
      · simp [doRetryAux, hd, hsleep, evalConds]
      · have hrec := ih (i + 1) (t + (net i).dur + delay)
          (by simp [ctxDone] at hsleep; omega)
          (by
            have : d ≤ t + (r' + 1) * delay := h2
            rw [Nat.succ_mul] at this
            omega)
        simp only [doRetryAux, hd, Bool.false_eq_true, if_false, evalConds]
        simp only [if_true]
        rw [if_neg (by simp), if_neg (by simpa using hsleep)]
        exact hrec

/-- Claim C3.  (1) If the effective context is done when an exchange
returns (and no background error is buffered), the loop stops at once
with the context's error — the trace shows no condition evaluation, no
sleep and no further exchange.  (2) If the context fires during the
inter-attempt sleep, the loop stops with the context's error and no
further exchange happens even though a condition had just requested a
retry.  (3) End to end: with an always-true retry condition and a
request-level timeout `T` with `1 ≤ T ≤ (attempts-1) * delay`, the
dispatch returns the context's deadline-exceeded error — which is not the
retry-exhaustion sentinel. -/
theorem claim_C3 :
    (∀ (net : Nat → Exchange) (ctx : Ctx) (conds : List (SResp → Bool))
        (delay i r t : Nat),
        ctxDone ctx (t + (net i).dur) = true →
        doRetryAux net ctx none conds delay i (r + 1) t =
          ({ raw := (net i).raw, err := some ctx.err }, [Event.exchange i])) ∧
    (∀ (net : Nat → Exchange) (ctx : Ctx) (bg : Option SError)
        (conds : List (SResp → Bool)) (delay i r t : Nat),
        ctxDone ctx (t + (net i).dur) = false →
        (evalConds conds (net i).err.isSome ⟨(net i).raw, (net i).err⟩).1 = true →
        r ≠ 0 →
        ctxDone ctx (t + (net i).dur + delay) = true →
        doRetryAux net ctx bg conds delay i (r + 1) t =
          ({ raw := (net i).raw, err := some ctx.err },
            Event.exchange i ::
              (List.range (evalConds conds (net i).err.isSome
                ⟨(net i).raw, (net i).err⟩).2).map (Event.cond i) ++
              [Event.sleepAborted i])) ∧
    (∀ (c : Client) (req : Request) (n delay T t0 : Nat),
        req.retry = some { attempts := n + 1, delay := delay,
                           conditions := [fun _ => true] } →
        req.timeout = T → 1 ≤ T → T ≤ n * delay →
        req.ctx = Ctx.background → req.errBackground = none →
        (c.doWithRetry req t0).1.err = some SError.deadlineExceeded ∧
        SError.deadlineExceeded ≠ ErrRetryMaxDurationExceeded) := by
  refine ⟨?_, ?_, ?_⟩
  · intro net ctx conds delay i r t hdone
    simp [doRetryAux, hdone]
  · intro net ctx bg conds delay i r t hlive hretry hr hsleep
    simp only [doRetryAux, hlive, Bool.false_eq_true, if_false]
    rw [if_neg (by simp [hretry, hr]), if_pos hsleep]
  · intro c req n delay T t0 hretry htime hT1 hTn hctx hbg
    refine ⟨?_, by decide⟩
    simp only [Client.doWithRetry, effectiveRetry, hretry, htime, hctx, hbg]
    have hTpos : 0 < T := by omega
    rw [if_pos hTpos]
    have hctx' : Ctx.withTimeout Ctx.background t0 T =
        ⟨some (t0 + T), SError.deadlineExceeded⟩ := rfl
    rw [hctx']
    exact ctx_beats_retry_aux c.net (t0 + T) delay SError.deadlineExceeded
      n 0 t0 (by omega) (by omega)

/-- Witness for C3: concrete runs of all three parts — a done context
stops the loop after one exchange with the context error; a context
firing during the sleep stops the loop despite an accepting condition;
and a dispatch with timeout 2, 3 attempts and delay 1 ends with
deadline-exceeded. -/
theorem claim_C3_witness :
    doRetryAux (fun _ => { dur := 1, raw := none, err := none })
        ⟨some 1, SError.canceled⟩ none [] 0 0 (4 + 1) 0 =
      ({ raw := none, err := some SError.canceled }, [Event.exchange 0]) ∧
    doRetryAux (fun _ => { dur := 1, raw := none, err := none })
        ⟨some 2, SError.deadlineExceeded⟩ none [fun _ => true] 3 0 (4 + 1) 0 =
      ({ raw := none, err := some SError.deadlineExceeded },
        Event.exchange 0 :: [Event.cond 0 0] ++ [Event.sleepAborted 0]) ∧
    (Client.doWithRetry
        { err := none, requestInterceptors := [], responseInterceptors := [],
          retry := none, net := fun _ => { dur := 0, raw := none, err := none } }
        { err := none, timeout := 2,
          retry := some { attempts := 3, delay := 1, conditions := [fun _ => true] },
          errBackground := none, ctx := Ctx.background } 0).1.err =
      some SError.deadlineExceeded := by
  refine ⟨?_, ?_, ?_⟩
  · exact claim_C3.1 _ _ [] 0 0 4 0 rfl
  · exact claim_C3.2.1 _ _ none [fun _ => true] 3 0 4 0 rfl rfl (by omega) rfl
  · exact (claim_C3.2.2 _ _ 2 1 2 0 rfl rfl (by omega) (by omega) rfl rfl).1

/-! ### Multipart background errors (src/request.go first revision) -/

/-- `File` (src/sreq.go second revision): one multipart part.  Only the
fields the validation in `setFiles` inspects are modelled; the part body
and MIME sniffing play no role in the claims. -/
structure File where
  Filename : String
  MIME : String
  deriving DecidableEq, Repr

/-- The validation outcome of `setFiles` (src/request.go first revision,
lines 290-330): the first part (in iteration order, modelled by list
order) lacking a filename aborts the encode with an error; transport-level
I/O failures of the pipe are outside the model. -/
def setFilesErr : List (String × File) → Option SError
  | [] => none
  | (k, f) :: rest =>
      if f.Filename = "" then
        some (.msg ("filename of [" ++ k ++ "] not specified"))
      else setFilesErr rest

/-- `Request.SetMultipart` (src/request.go first revision, lines 341-372),
modelled by the observable outcome of its background encoder goroutine:
on validation failure (occurring at time `tf`) the goroutine buffers a
`RequestError` wrapping the failure on `errBackground` and cancels the
shared request context; on success the channel stays empty. -/
def Request.SetMultipart (req : Request) (files : List (String × File))
    (tf : Nat) : Request :=
  if req.err.isSome then req
  else
    match setFilesErr files with
    | some e =>
        { req with errBackground := some (.requestError "SetMultipart" e),
                   ctx := req.ctx.cancelAt tf }
    | none => { req with errBackground := none }

theorem ctxDone_cancelAt (c : Ctx) (tf t : Nat) (h : tf ≤ t) :
    ctxDone (c.cancelAt tf) t = true := by
  unfold Ctx.cancelAt ctxDone
  match c with
  | ⟨none, e⟩ => simpa using h
  | ⟨some d, e⟩ =>
    by_cases hd : tf < d
    · simpa [hd] using h
    · simp only [hd, if_false]
      show decide (d ≤ t) = true
      simp
      omega

/-- Claim C4.  After `SetMultipart` whose background encoder fails with
`e` at time `tf`: the channel holds the `RequestError` wrapping `e`; the
shared request context is done from `tf` on (the encoder cancelled it);
generally, whenever the attempt loop observes a done context with a
buffered background error, the response error is the background error and
not the context's own (cancellation) error; and a single-attempt dispatch
started after `tf` reports exactly the encoder's `RequestError`. -/
theorem claim_C4 (req : Request) (files : List (String × File)) (tf : Nat)
    (e : SError) (hreq : req.err = none) (hf : setFilesErr files = some e) :
    ((req.SetMultipart files tf).errBackground
        = some (SError.requestError "SetMultipart" e)) ∧
    (∀ t, tf ≤ t → ctxDone (req.SetMultipart files tf).ctx t = true) ∧
    (∀ (net : Nat → Exchange) (ctx : Ctx) (be : SError)
        (conds : List (SResp → Bool)) (delay i r t : Nat),
        ctxDone ctx (t + (net i).dur) = true →
        (doRetryAux net ctx (some be) conds delay i (r + 1) t).1.err = some be) ∧
    (∀ (c : Client) (t0 : Nat),
        c.retry = none → req.retry = none → req.timeout = 0 → tf ≤ t0 →
        (c.doWithRetry (req.SetMultipart files tf) t0).1.err =
          some (SError.requestError "SetMultipart" e)) := by
  have hbuild : req.SetMultipart files tf =
      { req with errBackground := some (.requestError "SetMultipart" e),
                 ctx := req.ctx.cancelAt tf } := by
    unfold Request.SetMultipart
    rw [hreq]
    simp [hf]
  refine ⟨by rw [hbuild], ?_, ?_, ?_⟩
  · intro t ht
    rw [hbuild]
    exact ctxDone_cancelAt req.ctx tf t ht
  · intro net ctx be conds delay i r t hdone
    simp [doRetryAux, hdone]
  · intro c t0 hcr hrr htime hts
    have heff : effectiveRetry c (req.SetMultipart files tf) = defaultRetry := by
      rw [hbuild]
      simp [effectiveRetry, hcr, hrr]
    simp only [Client.doWithRetry, heff]
    rw [hbuild]
    simp only [htime]
    rw [if_neg (by omega)]
    show (doRetryAux c.net (req.ctx.cancelAt tf)
        (some (SError.requestError "SetMultipart" e)) [] 0 0 1 t0).1.err =
      some (SError.requestError "SetMultipart" e)
    have hdone : ctxDone (req.ctx.cancelAt tf) (t0 + (c.net 0).dur) = true :=
      ctxDone_cancelAt req.ctx tf _ (by omega)
    simp [doRetryAux, hdone]

/-- Witness for C4: a part with an empty filename makes the encoder fail;
the dispatched response reports the multipart `RequestError`, not the
generic cancellation error. -/
theorem claim_C4_witness :
    (Client.doWithRetry
        { err := none, requestInterceptors := [], responseInterceptors := [],
          retry := none, net := fun _ => { dur := 1, raw := none, err := none } }
        (Request.SetMultipart
          { err := none, timeout := 0, retry := none, errBackground := none,
            ctx := Ctx.background }
          [("avatar", { Filename := "", MIME := "image/png" })] 0) 0).1.err =
      some (SError.requestError "SetMultipart"
        (SError.msg "filename of [avatar] not specified")) :=
  (claim_C4
    { err := none, timeout := 0, retry := none, errBackground := none,
      ctx := Ctx.background }
    [("avatar", { Filename := "", MIME := "image/png" })] 0 _ rfl rfl).2.2.2
    _ 0 rfl rfl rfl (by omega)

/-! ## Canonical header keys (Go `net/textproto.CanonicalMIMEHeaderKey`)

Used by `http.Header.Set/Add/Get`, which the precedence-merge revision
(src/unnamed/part_001) and the 0.6.0 `Headers.String` rely on.  A key made
only of header token bytes is canonicalized (first letter and letters
after a hyphen upper-cased, others lower-cased); any other key is returned
unchanged. -/

/-- Valid header-key token bytes (Go's `validHeaderFieldByte` table):
letters, digits, and the listed ASCII punctuation codes. -/
def isHeaderTokenChar (c : Char) : Bool :=
  c.isAlphanum ||
    [33, 35, 36, 37, 38, 39, 42, 43, 45, 46, 94, 95, 96, 124, 126].contains c.toNat

/-- The canonicalization pass: upper-case after a start or hyphen,
lower-case otherwise. -/
def canonAux : List Char → Bool → List Char
  | [], _ => []
  | c :: cs, up =>
      let c2 := if up then c.toUpper else c.toLower
      c2 :: canonAux cs (c2 = '-')

/-- Go `textproto.CanonicalMIMEHeaderKey` / `http.CanonicalHeaderKey`. -/
def canonicalHeaderKey (s : String) : String :=
  if s.data.all isHeaderTokenChar then String.mk (canonAux s.data true) else s

/-! ## Go `http.Header`: an ordered multimap under canonical keys -/

/-- `http.Header`, as a list of (canonical key, values) entries. -/
def HttpHeader : Type := List (String × List String)

/-- Map update at an already-canonical key: replace the values with `[v]`. -/
def headerSetC : HttpHeader → String → String → HttpHeader
  | [], ck, v => [(ck, [v])]
  | p :: rest, ck, v => if p.1 = ck then (ck, [v]) :: rest else p :: headerSetC rest ck v

/-- `Header.Set` (canonicalizes the key, replaces all values). -/
def headerSet (h : HttpHeader) (k v : String) : HttpHeader :=
  headerSetC h (canonicalHeaderKey k) v

/-- Append at an already-canonical key. -/
def headerAddC : HttpHeader → String → String → HttpHeader
  | [], ck, v => [(ck, [v])]
  | p :: rest, ck, v =>
      if p.1 = ck then (p.1, p.2 ++ [v]) :: rest else p :: headerAddC rest ck v

/-- `Header.Add` (canonicalizes the key, appends the value). -/
def headerAdd (h : HttpHeader) (k v : String) : HttpHeader :=
  headerAddC h (canonicalHeaderKey k) v

/-- All values stored under a key (Go `Header.Values`). -/
def headerValues (h : HttpHeader) (k : String) : List String :=
  match h.find? (fun p => p.1 = canonicalHeaderKey k) with
  | some p => p.2
  | none => []

theorem headerValues_headerSet_self (h : HttpHeader) (k v : String) :
    headerValues (headerSet h k v) k = [v] := by
  unfold headerValues headerSet
  induction h with
  | nil => simp [headerSetC, List.find?]
  | cons p rest ih =>
    by_cases hp : p.1 = canonicalHeaderKey k
    · simp [headerSetC, hp, List.find?]
    · simp only [headerSetC, hp, Bool.false_eq_true, if_false]
      simpa [List.find?, hp] using ih

theorem headerValues_headerSet_other (h : HttpHeader) (k v k2 : String)
    (hne : canonicalHeaderKey k2 ≠ canonicalHeaderKey k) :
    headerValues (headerSet h k v) k2 = headerValues h k2 := by
  unfold headerValues headerSet
  induction h with
  | nil =>
    have hne2 : ¬ ((canonicalHeaderKey k : String) = canonicalHeaderKey k2) :=
      fun hh => hne hh.symm
    simp [headerSetC, List.find?, hne2]
  | cons p rest ih =>
    have hne2 : ¬ ((canonicalHeaderKey k : String) = canonicalHeaderKey k2) :=
      fun hh => hne hh.symm
    by_cases hp : p.1 = canonicalHeaderKey k
    · have hp2 : ¬ (p.1 = canonicalHeaderKey k2) := by rw [hp]; exact hne2
      simp [headerSetC, hp, List.find?, hne2, hp2]
    · simp only [headerSetC, hp, Bool.false_eq_true, if_false]
      by_cases hp2 : p.1 = canonicalHeaderKey k2
      · simp [List.find?, hp2]
      · simpa [List.find?, hp2] using ih

/-! ## Base64 (Go `encoding/base64.StdEncoding`), used by `basicAuth` -/

/-- The standard base64 alphabet. -/
def base64Chars : List Char :=
  "ABCDEFGHIJKLMNOPQRSTUVWXYZabcdefghijklmnopqrstuvwxyz0123456789+/".data

/-- Encode 3-byte groups into 4 alphabet characters with `=` padding. -/
def base64Group : List Nat → List Char
  | [] => []
  | [a] =>
      [base64Chars.getD (a / 4) 'A', base64Chars.getD (a % 4 * 16) 'A', '=', '=']
  | [a, b] =>
      [base64Chars.getD (a / 4) 'A', base64Chars.getD (a % 4 * 16 + b / 16) 'A',
        base64Chars.getD (b % 16 * 4) 'A', '=']
  | a :: b :: d :: rest =>
      base64Chars.getD (a / 4) 'A' ::
        base64Chars.getD (a % 4 * 16 + b / 16) 'A' ::
        base64Chars.getD (b % 16 * 4 + d / 64) 'A' ::
        base64Chars.getD (d % 64) 'A' :: base64Group rest

/-- `base64.StdEncoding.EncodeToString` over a byte list. -/
def base64Encode (bs : List Nat) : String := String.mk (base64Group bs)

/-- The UTF-8 bytes of a Go string. -/
def strBytes (s : String) : List Nat := s.toUTF8.data.toList.map (fun b => b.toNat)

/-- `basicAuth` (src/unnamed/part_001, lines 790-793):
base64 of `username:password`. -/
def basicAuth (username password : String) : String :=
  base64Encode (strBytes (username ++ ":" ++ password))

/-! ## The precedence-merge revision (src/unnamed/part_001)

In this revision the `Client` owns default host/headers/cookies/basic
auth/bearer token/context, and `Client.Do` merges them with the
request-level equivalents before dispatch.  Definitions are prefixed `M`.
The `Request` struct of this revision is not under src/; its fields are
reconstructed from their uses in part_001 (`req.Host`, `req.Headers`,
`req.Cookies`, `req.auth`, `req.bearerToken`, `req.ctx`, `req.Timeout`,
`req.retry`, `req.RawRequest`, `req.Err`). -/

/-- An HTTP cookie (name, value). -/
structure MCookie where
  name : String
  value : String
  deriving DecidableEq, Repr

/-- Basic-auth credentials (`auth` struct of the merge revision). -/
structure MAuth where
  username : String
  password : String
  deriving DecidableEq, Repr

/-- The raw outbound `http.Request` of the merge revision: host, header
multimap, attached cookies, and context. -/
structure MRawRequest where
  host : String
  header : HttpHeader
  cookies : List MCookie
  ctx : Ctx

/-- `Request` of the merge revision (fields reconstructed from their uses
in src/unnamed/part_001). -/
structure MRequest where
  rawRequest : MRawRequest
  err : Option SError
  Host : String
  Headers : List (String × HVal)
  Cookies : List MCookie
  auth : Option MAuth
  bearerToken : String
  ctx : Option Ctx
  Timeout : Nat
  retry : Option Retry

/-- `Client` of the merge revision (src/unnamed/part_001, lines 34-48). -/
structure MClient where
  err : Option SError
  Host : String
  Headers : List (String × HVal)
  Cookies : List MCookie
  auth : Option MAuth
  bearerToken : String
  ctx : Option Ctx
  retry : Option Retry
  requestInterceptors : List (MRequest → Option SError)
  responseInterceptors : List (SResp → Option SError)
  net : Nat → Exchange

/-- `Client.setHost` (src/unnamed/part_001, lines 722-731). -/
def MClient.setHost (c : MClient) (req : MRequest) : MRequest :=
  let host := if req.Host ≠ "" then req.Host else c.Host
  if host ≠ "" then { req with rawRequest.host := host } else req

/-- Go map update `m[k] = v` on an association list built from the empty
map: replace the first binding of `k` or append a new one. -/
def mapSet : List (String × HVal) → String → HVal → List (String × HVal)
  | [], k, v => [(k, v)]
  | p :: rest, k, v => if p.1 = k then (k, v) :: rest else p :: mapSet rest k v

/-- The merged header map of `Client.setHeaders` (src/unnamed/part_001,
lines 733-740): client entries first, request entries layered on top.
Go iterates the two maps in unspecified order; list order is the
deterministic refinement used here (per-key results are order
independent). -/
def mergeHeaders (ch rh : List (String × HVal)) : List (String × HVal) :=
  rh.foldl (fun m p => mapSet m p.1 p.2)
    (ch.foldl (fun m p => mapSet m p.1 p.2) [])

/-- Applying one merged entry to the raw header (src/unnamed/part_001,
lines 742-766): scalars use `Header.Set`, arrays use `Header.Add` per
element, unsupported types are skipped. -/
def applyHeaderEntry (h : HttpHeader) (k : String) (v : HVal) : HttpHeader :=
  match v with
  | .str s => headerSet h k s
  | .int n => headerSet h k (itoa n)
  | .strArr l => l.foldl (fun h s => headerAdd h k s) h
  | .intArr l => l.foldl (fun h n => headerAdd h k (itoa n)) h
  | .mixArr l =>
      l.foldl (fun h m =>
        match m with
        | .str s => headerAdd h k s
        | .int n => headerAdd h k (itoa n)
        | .other => h) h
  | .other => h

/-- `Client.setHeaders` (src/unnamed/part_001, lines 733-767). -/
def MClient.setHeaders (c : MClient) (req : MRequest) : MRequest :=
  let h2 := (mergeHeaders c.Headers req.Headers).foldl
    (fun h p => applyHeaderEntry h p.1 p.2) req.rawRequest.header
  { req with rawRequest.header := h2 }

/-- `Client.setCookies` (src/unnamed/part_001, lines 769-777): client
cookies then request cookies are added to the outbound message. -/
def MClient.setCookies (c : MClient) (req : MRequest) : MRequest :=
  let cs := req.rawRequest.cookies ++ c.Cookies ++ req.Cookies
  { req with rawRequest.cookies := cs }

/-- `Client.setBasicAuth` (src/unnamed/part_001, lines 779-788). -/
def MClient.setBasicAuth (c : MClient) (req : MRequest) : MRequest :=
  let auth := match req.auth with
    | some a => some a
    | none => c.auth
  match auth with
  | some a =>
      let h2 := headerSet req.rawRequest.header "Authorization"
        ("Basic " ++ basicAuth a.username a.password)
      { req with rawRequest.header := h2 }
  | none => req

/-- `Client.setBearerToken` (src/unnamed/part_001, lines 795-804). -/
def MClient.setBearerToken (c : MClient) (req : MRequest) : MRequest :=
  let token := if req.bearerToken ≠ "" then req.bearerToken else c.bearerToken
  if token ≠ "" then
    let h2 := headerSet req.rawRequest.header "Authorization" ("Bearer " ++ token)
    { req with rawRequest.header := h2 }
  else req

/-- `Client.setContext` (src/unnamed/part_001, lines 806-815). -/
def MClient.setContext (c : MClient) (req : MRequest) : MRequest :=
  let ctx := match req.ctx with
    | some x => some x
    | none => c.ctx
  match ctx with
  | some x => { req with rawRequest.ctx := x }
  | none => req

/-- The precedence-merge phase of `Client.Do` (src/unnamed/part_001,
lines 683-688): the six setters in call order. -/
def MClient.mergeSettings (c : MClient) (req : MRequest) : MRequest :=
  c.setContext (c.setBearerToken (c.setBasicAuth
    (c.setCookies (c.setHeaders (c.setHost req)))))

/-- Request interceptor pass of the merge revision. -/
def monBeforeRequest : List (MRequest → Option SError) → MRequest → Option SError
  | [], _ => none
  | f :: fs, req =>
      match f req with
      | some e => some e
      | none => monBeforeRequest fs req

/-- Response interceptor pass of the merge revision. -/
def monAfterResponse : List (SResp → Option SError) → SResp → SResp
  | [], resp => resp
  | f :: fs, resp =>
      match f resp with
      | some e => { resp with err := some e }
      | none => monAfterResponse fs resp

/-- The attempt loop of the merge revision (src/unnamed/part_001, lines
836-862): a count-down loop that returns the current response when no
retry is wanted, aborts with the context error when the context is done
after an exchange or fires during the sleep, and falls out of the loop
with the last response when attempts are exhausted. -/
def doRetryAuxM (net : Nat → Exchange) (ctx : Ctx)
    (conds : List (SResp → Bool)) (delay : Nat) :
    Nat → Nat → Nat → SResp → SResp
  | _, 0, _, cur => cur
  | i, r + 1, t, _ =>
      let ex := net i
      let t1 := t + ex.dur
      let resp : SResp := ⟨ex.raw, ex.err⟩
      if ctxDone ctx t1 then { resp with err := some ctx.err }
      else
        let ev := evalConds conds resp.err.isSome resp
        if ev.1 = false then resp
        else
          if ctxDone ctx (t1 + delay) then { resp with err := some ctx.err }
          else doRetryAuxM net ctx conds delay (i + 1) r (t1 + delay) resp

/-- `Client.doWithRetry` of the merge revision (src/unnamed/part_001,
lines 817-863): when neither level has a retry policy, a single exchange
with no context check; otherwise the request-level (else client-level)
policy drives the count-down loop. -/
def MClient.doWithRetry (c : MClient) (req : MRequest) (t0 : Nat) : SResp :=
  let ctx := if req.Timeout > 0 then req.rawRequest.ctx.withTimeout t0 req.Timeout
             else req.rawRequest.ctx
  match req.retry, c.retry with
  | none, none => ⟨(c.net 0).raw, (c.net 0).err⟩
  | rr, cr =>
      let retry := match rr with
        | some r => r
        | none => match cr with
          | some r => r
          | none => defaultRetry
      doRetryAuxM c.net ctx retry.conditions retry.delay 0 retry.attempts t0
        ⟨none, none⟩

/-- `Client.Do` of the merge revision (src/unnamed/part_001, lines
670-699): build-check, precedence merge, request interceptors, attempt
loop, response interceptors. -/
def MClient.Do (c : MClient) (req : MRequest) (t0 : Nat) : SResp :=
  if c.err.isSome then { raw := none, err := c.err }
  else if req.err.isSome then { raw := none, err := req.err }
  else
    let req2 := c.mergeSettings req
    match monBeforeRequest c.requestInterceptors req2 with
    | some e => { raw := none, err := some e }
    | none => monAfterResponse c.responseInterceptors (c.doWithRetry req2 t0)

/-! ### Characterizing the precedence merge -/

theorem firstThree_eq (c : MClient) (req : MRequest) :
    c.setCookies (c.setHeaders (c.setHost req)) =
      { req with rawRequest :=
          { host := if req.Host ≠ "" then req.Host
                    else if c.Host ≠ "" then c.Host else req.rawRequest.host,
            header := (mergeHeaders c.Headers req.Headers).foldl
              (fun h p => applyHeaderEntry h p.1 p.2) req.rawRequest.header,
            cookies := req.rawRequest.cookies ++ c.Cookies ++ req.Cookies,
            ctx := req.rawRequest.ctx } } := by
  unfold MClient.setCookies MClient.setHeaders MClient.setHost
  by_cases h1 : req.Host ≠ ""
  · simp [h1]
  · by_cases h2 : c.Host ≠ "" <;> simp [h1, h2]

/-- The raw header produced by the merge phase, as a function of the two
configurations: layered container merge, then basic auth, then bearer
token. -/
def mergedHeaderOf (c : MClient) (req : MRequest) : HttpHeader :=
  let h1 := (mergeHeaders c.Headers req.Headers).foldl
    (fun h p => applyHeaderEntry h p.1 p.2) req.rawRequest.header
  let h2 := match req.auth with
    | some a => headerSet h1 "Authorization" ("Basic " ++ basicAuth a.username a.password)
    | none =>
        match c.auth with
        | some a => headerSet h1 "Authorization" ("Basic " ++ basicAuth a.username a.password)
        | none => h1
  let token := if req.bearerToken ≠ "" then req.bearerToken else c.bearerToken
  if token ≠ "" then headerSet h2 "Authorization" ("Bearer " ++ token) else h2

theorem mergeSettings_eq (c : MClient) (req : MRequest) :
    c.mergeSettings req =
      { req with rawRequest :=
          { host := if req.Host ≠ "" then req.Host
                    else if c.Host ≠ "" then c.Host else req.rawRequest.host,
            header := mergedHeaderOf c req,
            cookies := req.rawRequest.cookies ++ c.Cookies ++ req.Cookies,
            ctx := match req.ctx with
                   | some x => x
                   | none =>
                       match c.ctx with
                       | some y => y
                       | none => req.rawRequest.ctx } } := by
  rw [MClient.mergeSettings, firstThree_eq]
  unfold MClient.setContext MClient.setBearerToken MClient.setBasicAuth mergedHeaderOf
  cases hra : req.auth <;> cases hca : c.auth <;>
    cases hrc : req.ctx <;> cases hcc : c.ctx <;>
      by_cases hb : req.bearerToken ≠ "" <;>
        by_cases hcb : c.bearerToken ≠ "" <;> simp_all

theorem lookupVal_mapSet (m : List (String × HVal)) (k : String) (v : HVal)
    (k2 : String) :
    lookupVal (mapSet m k v) k2 = if k = k2 then some v else lookupVal m k2 := by
  induction m with
  | nil => simp [mapSet, lookupVal]
  | cons p rest ih =>
    by_cases hp : p.1 = k
    · simp only [mapSet, hp, if_pos rfl, lookupVal]
      by_cases hk : k = k2
      · simp [hk]
      · have : ¬ (p.1 = k2) := by rw [hp]; exact hk
        simp [hk, this, lookupVal]
    · simp only [mapSet, hp, Bool.false_eq_true, if_false, lookupVal]
      by_cases hp2 : p.1 = k2
      · have : ¬ (k = k2) := fun h => hp (h ▸ hp2)
        simp [hp2, this]
      · simp [hp2, ih]

theorem lookupVal_append (a b : List (String × HVal)) (k : String) :
    lookupVal (a ++ b) k =
      match lookupVal a k with
      | some v => some v
      | none => lookupVal b k := by
  induction a with
  | nil => simp [lookupVal]
  | cons p rest ih =>
    by_cases hp : p.1 = k <;> simp [lookupVal, hp, ih]

theorem lookupVal_foldl_mapSet (l : List (String × HVal))
    (acc : List (String × HVal)) (k : String) :
    lookupVal (l.foldl (fun a p => mapSet a p.1 p.2) acc) k =
      match lookupVal l.reverse k with
      | some v => some v
      | none => lookupVal acc k := by
  induction l generalizing acc with
  | nil => simp [lookupVal]
  | cons p rest ih =>
    simp only [List.foldl_cons, List.reverse_cons, ih, lookupVal_append]
    by_cases hk : p.1 = k
    · cases h : lookupVal rest.reverse k <;> simp [lookupVal_mapSet, lookupVal, hk, h]
    · have : ¬ (p.1 = k) := hk
      cases h : lookupVal rest.reverse k <;> simp [lookupVal_mapSet, lookupVal, hk, h]

theorem lookupVal_eq_none (m : List (String × HVal)) (k : String)
    (h : ¬ k ∈ m.map Prod.fst) : lookupVal m k = none := by
  induction m with
  | nil => rfl
  | cons p rest ih =>
    simp only [List.map_cons, List.mem_cons, not_or] at h
    have : ¬ (p.1 = k) := fun he => h.1 he.symm
    simp [lookupVal, this, ih h.2]

theorem lookupVal_reverse_nodup (m : List (String × HVal)) (k : String)
    (nd : (m.map Prod.fst).Nodup) : lookupVal m.reverse k = lookupVal m k := by
  induction m with
  | nil => rfl
  | cons p rest ih =>
    simp only [List.map_cons, List.nodup_cons] at nd
    rw [List.reverse_cons, lookupVal_append]
    by_cases hp : p.1 = k
    · have hnm : ¬ k ∈ rest.map Prod.fst := hp ▸ nd.1
      have : lookupVal rest.reverse k = none := by
        rw [ih nd.2]
        exact lookupVal_eq_none rest k hnm
      simp [this, lookupVal, hp]
    · rw [ih nd.2]
      cases h : lookupVal rest k <;> simp [lookupVal, hp, h]

theorem mergeHeaders_lookup (ch rh : List (String × HVal)) (k : String)
    (ndc : (ch.map Prod.fst).Nodup) (ndr : (rh.map Prod.fst).Nodup) :
    lookupVal (mergeHeaders ch rh) k =
      match lookupVal rh k with
      | some v => some v
      | none => lookupVal ch k := by
  unfold mergeHeaders
  rw [lookupVal_foldl_mapSet, lookupVal_foldl_mapSet,
    lookupVal_reverse_nodup ch k ndc, lookupVal_reverse_nodup rh k ndr]
  cases lookupVal rh k <;> cases lookupVal ch k <;> simp [lookupVal]

/-- Claim C2.  The precedence merge of `Client.Do` (merge revision):
(1) host — request-level when nonempty, else client-level, else the raw
request's own; (2) per overridable header key, the request-level container
value wins, else the client-level default; (3) cookies — the outbound
cookies are the union of client-level and request-level cookies; (4)
basic auth — the effective credentials (request-level first) are applied;
(5) bearer token — the effective token (request-level first) is applied;
(6) context — request-level, else client-level, else the raw request's;
(7) the Referer example: client default `Referer=A` with per-request
`Referer=B` yields outbound `Referer: B`. -/
theorem claim_C2 (c : MClient) (req : MRequest) :
    ((c.mergeSettings req).rawRequest.host =
      if req.Host ≠ "" then req.Host
      else if c.Host ≠ "" then c.Host else req.rawRequest.host) ∧
    ((req.Headers.map Prod.fst).Nodup → (c.Headers.map Prod.fst).Nodup →
      ∀ k, lookupVal (mergeHeaders c.Headers req.Headers) k =
        match lookupVal req.Headers k with
        | some v => some v
        | none => lookupVal c.Headers k) ∧
    ((c.mergeSettings req).rawRequest.cookies =
      req.rawRequest.cookies ++ c.Cookies ++ req.Cookies) ∧
    (∀ a, (match req.auth with | some x => some x | none => c.auth) = some a →
      req.bearerToken = "" → c.bearerToken = "" →
      headerValues (c.mergeSettings req).rawRequest.header "Authorization" =
        ["Basic " ++ basicAuth a.username a.password]) ∧
    ((if req.bearerToken ≠ "" then req.bearerToken else c.bearerToken) ≠ "" →
      headerValues (c.mergeSettings req).rawRequest.header "Authorization" =
        ["Bearer " ++ (if req.bearerToken ≠ "" then req.bearerToken else c.bearerToken)]) ∧
    ((c.mergeSettings req).rawRequest.ctx =
      match req.ctx with
      | some x => x
      | none => match c.ctx with | some y => y | none => req.rawRequest.ctx) ∧
    (∀ A B, c.Headers = [("Referer", HVal.str A)] →
      req.Headers = [("Referer", HVal.str B)] →
      req.rawRequest.header = [] →
      req.auth = none → c.auth = none →
      req.bearerToken = "" → c.bearerToken = "" →
      headerValues (c.mergeSettings req).rawRequest.header "Referer" = [B]) := by
  refine ⟨?_, ?_, ?_, ?_, ?_, ?_, ?_⟩
  · rw [mergeSettings_eq]
  · intro ndr ndc k
    exact mergeHeaders_lookup c.Headers req.Headers k ndc ndr
  · rw [mergeSettings_eq]
  · intro a ha hrb hcb
    rw [mergeSettings_eq]
    show headerValues (mergedHeaderOf c req) "Authorization" = _
    unfold mergedHeaderOf
    rw [hrb, hcb]
    simp only [ne_eq, not_true_eq_false, if_neg, ite_false]
    cases hra : req.auth with
    | some x =>
      rw [hra] at ha
      cases ha
      exact headerValues_headerSet_self _ "Authorization" _
    | none =>
      rw [hra] at ha
      simp only at ha
      rw [ha]
      exact headerValues_headerSet_self _ "Authorization" _
  · intro htok
    rw [mergeSettings_eq]
    show headerValues (mergedHeaderOf c req) "Authorization" = _
    unfold mergedHeaderOf
    rw [if_pos htok]
    exact headerValues_headerSet_self _ "Authorization" _
  · rw [mergeSettings_eq]
  · intro A B hch hrh hraw hra hca hrb hcb
    rw [mergeSettings_eq]
    show headerValues (mergedHeaderOf c req) "Referer" = [B]
    unfold mergedHeaderOf
    rw [hch, hrh, hraw, hra, hca, hrb, hcb]
    simp only [mergeHeaders, mapSet, List.foldl_cons, List.foldl_nil,
      applyHeaderEntry, ne_eq, not_true_eq_false, if_neg, ite_false,
      if_pos rfl]
    exact headerValues_headerSet_self [] "Referer" B

/-- A concrete client for the C2 witness: default header `Referer=A` and
one client-level cookie. -/
def mClientA : MClient where
  err := none
  Host := ""
  Headers := [("Referer", HVal.str "A")]
  Cookies := [{ name := "uid", value := "1" }]
  auth := none
  bearerToken := ""
  ctx := none
  retry := none
  requestInterceptors := []
  responseInterceptors := []
  net := fun _ => { dur := 1, raw := none, err := none }

/-- A concrete request for the C2 witness: per-request header `Referer=B`
and one request-level cookie. -/
def mRequestB : MRequest where
  rawRequest := { host := "", header := [], cookies := [], ctx := Ctx.background }
  err := none
  Host := ""
  Headers := [("Referer", HVal.str "B")]
  Cookies := [{ name := "sid", value := "2" }]
  auth := none
  bearerToken := ""
  ctx := none
  Timeout := 0
  retry := none

/-- Witness for C2 at concrete inputs: `Referer=A` at client level and
`Referer=B` per request yield outbound `Referer: B`; cookies are the
union of both levels. -/
theorem claim_C2_witness :
    headerValues (MClient.mergeSettings mClientA mRequestB).rawRequest.header
        "Referer" = ["B"] ∧
    (MClient.mergeSettings mClientA mRequestB).rawRequest.cookies =
      [{ name := "uid", value := "1" }, { name := "sid", value := "2" }] :=
  ⟨(claim_C2 mClientA mRequestB).2.2.2.2.2.2 "A" "B" rfl rfl rfl rfl rfl rfl rfl,
    (claim_C2 mClientA mRequestB).2.2.1⟩

/-! ## The body-caching Response (revision embedded at the end of
src/request_test.go, lines 1288-1514)

This revision's `Response` carries a `body []byte` cache.  The body
stream is modelled by the bytes it still holds plus counters of completed
network reads and of `Close()` calls; `ReadAll` and decoder drains are
the reads.  I/O failures of the underlying stream are outside the model.
Decode results are represented by the bytes they operate on: `Text`
returns the body bytes (Go `string(b)` preserves the raw bytes), `JSON`
returns the bytes handed to the decoder, `Save` returns the bytes written
to the file. -/

/-- The raw response body stream. -/
structure BodyStream where
  data : List Nat
  reads : Nat
  closes : Nat
  deriving DecidableEq, Repr

/-- `Response` of the caching revision: raw body stream, sticky error,
and the `body` cache (`none` models Go's nil slice). -/
structure CResponse where
  rawBody : BodyStream
  err : Option SError
  body : Option (List Nat)
  deriving DecidableEq, Repr

/-- `Response.Content` (request_test.go revision, lines 1307-1316): on a
sticky error or a populated cache return immediately; otherwise read the
whole stream once, close it, and cache the bytes. -/
def CResponse.Content (resp : CResponse) : (List Nat × Option SError) × CResponse :=
  if resp.err.isSome ∨ resp.body.isSome then ((resp.body.getD [], resp.err), resp)
  else
    let bytes := resp.rawBody.data
    ((bytes, none),
      { resp with
          rawBody := { data := [], reads := resp.rawBody.reads + 1,
                       closes := resp.rawBody.closes + 1 },
          body := some bytes })

/-- `Response.Text` with no charset override (request_test.go revision,
lines 1320-1328): `string(Content())`; Go string conversion preserves the
raw bytes. -/
def CResponse.Text (resp : CResponse) : (List Nat × Option SError) × CResponse :=
  CResponse.Content resp

/-- `Response.JSON` (request_test.go revision, lines 1331-1349): decode
from the cache when populated; otherwise decode through a tee that
buffers the stream into the cache while closing the stream once. -/
def CResponse.JSON (resp : CResponse) : (List Nat × Option SError) × CResponse :=
  if resp.err.isSome then (([], resp.err), resp)
  else
    match resp.body with
    | some b => ((b, none), resp)
    | none =>
        let bytes := resp.rawBody.data
        ((bytes, none),
          { resp with
              rawBody := { data := [], reads := resp.rawBody.reads + 1,
                           closes := resp.rawBody.closes + 1 },
              body := some bytes })

/-- `Response.Save` (request_test.go revision, lines 1439-1457): write the
cache when populated; otherwise stream-copy into the file, closing the
stream.  Returns the bytes written. -/
def CResponse.Save (resp : CResponse) : (List Nat × Option SError) × CResponse :=
  if resp.err.isSome then (([], resp.err), resp)
  else
    match resp.body with
    | some b => ((b, none), resp)
    | none =>
        let bytes := resp.rawBody.data
        ((bytes, none),
          { resp with
              rawBody := { data := [], reads := resp.rawBody.reads + 1,
                           closes := resp.rawBody.closes + 1 } })

/-- Claim C9.  On a freshly dispatched successful Response, calling
`Text()`, then `JSON(v)`, then `Save(path)` performs exactly one network
read and one close of the body stream, and the results are mutually
consistent: the decoder sees exactly the text's bytes and the saved
file's bytes equal the text's bytes. -/
theorem claim_C9 (resp : CResponse) (herr : resp.err = none)
    (hbody : resp.body = none) (hreads : resp.rawBody.reads = 0)
    (hcloses : resp.rawBody.closes = 0) :
    (CResponse.Save (CResponse.JSON (CResponse.Text resp).2).2).2.rawBody.reads = 1 ∧
    (CResponse.Save (CResponse.JSON (CResponse.Text resp).2).2).2.rawBody.closes = 1 ∧
    (CResponse.Text resp).1.1 = resp.rawBody.data ∧
    (CResponse.JSON (CResponse.Text resp).2).1.1 = (CResponse.Text resp).1.1 ∧
    (CResponse.Save (CResponse.JSON (CResponse.Text resp).2).2).1.1 =
      (CResponse.Text resp).1.1 := by
  simp [CResponse.Text, CResponse.Content, CResponse.JSON, CResponse.Save,
    herr, hbody, hreads, hcloses]

/-- Witness for C9: a concrete two-byte body is read and closed once and
all three calls agree on its bytes. -/
theorem claim_C9_witness :
    (CResponse.Save (CResponse.JSON (CResponse.Text
        { rawBody := { data := [104, 105], reads := 0, closes := 0 },
          err := none, body := none }).2).2).2.rawBody.reads = 1 ∧
    (CResponse.Save (CResponse.JSON (CResponse.Text
        { rawBody := { data := [104, 105], reads := 0, closes := 0 },
          err := none, body := none }).2).2).1.1 = [104, 105] := by
  have h := claim_C9
    { rawBody := { data := [104, 105], reads := 0, closes := 0 },
      err := none, body := none } rfl rfl rfl rfl
  exact ⟨h.1, by rw [h.2.2.2.2, h.2.2.1]⟩

/-! ## Headers serialization (src/sreq.go, second revision, lines 409-414)

`Headers` is the same container shape as `Values`; `Headers.String`
(embedded here as `Headers.stringRepr`, renamed to avoid clashing with the
`String` type) serializes it through the same sorted-key `write` driver,
but with the `writeHeaders` callback: canonical-case header names,
`": "` separators and CRLF line joins — not JSON. -/

/-- `Headers` (src/sreq.go second revision): same container as `Values`. -/
def Headers : Type := List (String × HVal)

/-- `writeHeaders` (src/sreq.go second revision, lines 546-555). -/
def writeHeaders (sb : String) (k : String) (vs : List String) : String :=
  vs.foldl
    (fun sb s =>
      (if sb.length > 0 then sb ++ "\r\n" else sb) ++ canonicalHeaderKey k ++ ": " ++ s)
    sb

/-- `Headers.String` (src/sreq.go second revision, lines 410-414). -/
def Headers.stringRepr (h : Headers) : String :=
  write (Values.Keys h) (Values.Get h) writeHeaders

/-! ### A JSON value parser, to state the round-trip claim

The specification asserts `Headers.String()` emits JSON.  This parser
recognizes the JSON texts a flat map of scalars serializes to: an object
of string keys whose values are strings, integers, booleans or null, with
arbitrary interleaved whitespace. -/

/-- A scalar JSON value. -/
inductive JVal where
  | jstr (s : String)
  | jint (n : Int)
  | jbool (b : Bool)
  | jnull
  deriving DecidableEq, Repr

/-- Drop leading JSON whitespace. -/
def skipWs : List Char → List Char
  | [] => []
  | c :: cs => if c = ' ' ∨ c = '\n' ∨ c = '\t' ∨ c = '\r' then skipWs cs else c :: cs

/-- Parse the remainder of a JSON string literal (after the opening
quote), handling the common escapes. -/
def parseJStringAux : List Char → List Char → Option (String × List Char)
  | [], _ => none
  | c :: cs, acc =>
      if c = '"' then some (String.mk acc.reverse, cs)
      else if c = '\\' then
        match cs with
        | [] => none
        | d :: ds =>
            if d = '"' then parseJStringAux ds ('"' :: acc)
            else if d = '\\' then parseJStringAux ds ('\\' :: acc)
            else if d = '/' then parseJStringAux ds ('/' :: acc)
            else if d = 'n' then parseJStringAux ds ('\n' :: acc)
            else if d = 't' then parseJStringAux ds ('\t' :: acc)
            else if d = 'r' then parseJStringAux ds ('\r' :: acc)
            else none
      else parseJStringAux cs (c :: acc)
  termination_by l _ => l.length

/-- Parse a run of decimal digits. -/
def parseDigits : List Char → Nat → Nat × List Char
  | [], acc => (acc, [])
  | c :: cs, acc =>
      if c.isDigit then parseDigits cs (acc * 10 + (c.toNat - 48)) else (acc, c :: cs)

/-- Parse one scalar JSON value. -/
def parseJValue (cs : List Char) : Option (JVal × List Char) :=
  match skipWs cs with
  | [] => none
  | c :: rest =>
      if c = '"' then
        (parseJStringAux rest []).map (fun p => (.jstr p.1, p.2))
      else if c = '-' then
        match rest with
        | d :: _ =>
            if d.isDigit then
              let p := parseDigits rest 0
              some (.jint (-(p.1 : Int)), p.2)
            else none
        | [] => none
      else if c.isDigit then
        let p := parseDigits (c :: rest) 0
        some (.jint (p.1 : Int), p.2)
      else if c = 't' then
        if rest.take 3 = ['r', 'u', 'e'] then some (.jbool true, rest.drop 3) else none
      else if c = 'f' then
        if rest.take 4 = ['a', 'l', 's', 'e'] then some (.jbool false, rest.drop 4)
        else none
      else if c = 'n' then
        if rest.take 3 = ['u', 'l', 'l'] then some (.jnull, rest.drop 3) else none
      else none

/-- Parse the members of a JSON object (after the opening brace, at least
one member). -/
def parseJMembers : Nat → List Char → Option (List (String × JVal) × List Char)
  | 0, _ => none
  | fuel + 1, cs =>
      match skipWs cs with
      | [] => none
      | c :: rest =>
          if c = '"' then
            match parseJStringAux rest [] with
            | none => none
            | some (k, cs2) =>
                match skipWs cs2 with
                | [] => none
                | d :: cs3 =>
                    if d = ':' then
                      match parseJValue cs3 with
                      | none => none
                      | some (v, cs4) =>
                          match skipWs cs4 with
                          | [] => none
                          | e :: cs5 =>
                              if e = ',' then
                                match parseJMembers fuel cs5 with
                                | none => none
                                | some (ms, cs6) => some ((k, v) :: ms, cs6)
                              else if e = '}' then some ([(k, v)], cs5)
                              else none
                    else none
          else none

/-- Parse a complete JSON object text: `{`, members (possibly none), `}`,
allowing only whitespace around and between tokens. -/
def jsonParseObject (s : String) : Option (List (String × JVal)) :=
  match skipWs s.data with
  | [] => none
  | c :: rest =>
      if c = '{' then
        match skipWs rest with
        | [] => none
        | d :: rest2 =>
            if d = '}' then
              if (skipWs rest2).isEmpty then some [] else none
            else
              match parseJMembers (s.length + 1) rest with
              | none => none
              | some (ms, restEnd) =>
                  if (skipWs restEnd).isEmpty then some ms else none
      else none

/-! ### The shape `Headers.String` actually emits -/

/-- Join strings with a separator. -/
def joinSep (sep : String) : List String → String
  | [] => ""
  | [p] => p
  | p :: ps => p ++ sep ++ joinSep sep ps

/-- Append pieces to a string builder, inserting `sep` whenever the
builder is nonempty (the common shape of the `write` callbacks). -/
def addSepPairs (sep sb : String) (ps : List String) : String :=
  ps.foldl (fun sb p => (if sb.length > 0 then sb ++ sep else sb) ++ p) sb

/-- The header lines of a serialized `Headers` map: canonical-case name,
`": "`, one line per element of each key's normalized projection, keys in
ascending order. -/
def headerPairs (h : Headers) : List String :=
  ((sortedKeys (Values.Keys h)).map
    (fun k => (Values.Get h k).map
      (fun s => canonicalHeaderKey k ++ ": " ++ s))).flatten

theorem writeHeaders_eq_addSepPairs (sb k : String) (vs : List String) :
    writeHeaders sb k vs =
      addSepPairs "\r\n" sb (vs.map (fun s => canonicalHeaderKey k ++ ": " ++ s)) := by
  induction vs generalizing sb with
  | nil => rfl
  | cons s rest ih =>
    have h1 : writeHeaders sb k (s :: rest) =
        writeHeaders
          ((if sb.length > 0 then sb ++ "\r\n" else sb) ++ canonicalHeaderKey k ++ ": " ++ s)
          k rest := rfl
    have h2 : addSepPairs "\r\n" sb
          ((s :: rest).map (fun s => canonicalHeaderKey k ++ ": " ++ s)) =
        addSepPairs "\r\n"
          ((if sb.length > 0 then sb ++ "\r\n" else sb) ++
            (canonicalHeaderKey k ++ ": " ++ s))
          (rest.map (fun s => canonicalHeaderKey k ++ ": " ++ s)) := rfl
    have h3 : (if sb.length > 0 then sb ++ "\r\n" else sb) ++ canonicalHeaderKey k ++ ": " ++ s =
        (if sb.length > 0 then sb ++ "\r\n" else sb) ++ (canonicalHeaderKey k ++ ": " ++ s) :=
      String.ext (by simp [String.data_append])
    rw [h1, ih, h2, h3]

theorem addSepPairs_pos (sep sb : String) (ps : List String) (h : sb.length > 0) :
    addSepPairs sep sb ps = if ps.isEmpty then sb else sb ++ sep ++ joinSep sep ps := by
  induction ps generalizing sb with
  | nil => rfl
  | cons p rest ih =>
    have h1 : addSepPairs sep sb (p :: rest) =
        addSepPairs sep ((if sb.length > 0 then sb ++ sep else sb) ++ p) rest := rfl
    rw [h1, if_pos h]
    have hlen : (sb ++ sep ++ p).length > 0 := by
      rw [strLength_append, strLength_append]
      omega
    rw [ih _ hlen]
    cases rest with
    | nil => simp [joinSep]
    | cons q qs =>
      simp only [List.isEmpty_cons, Bool.false_eq_true, if_false]
      refine String.ext ?_
      simp [String.data_append, joinSep]

theorem addSepPairs_empty_builder (sep : String) (ps : List String)
    (h : ∀ p ∈ ps, p.length > 0) : addSepPairs sep "" ps = joinSep sep ps := by
  cases ps with
  | nil => rfl
  | cons p rest =>
    have hp : p.length > 0 := h p (by simp)
    have h1 : addSepPairs sep "" (p :: rest) =
        addSepPairs sep ((if ("" : String).length > 0 then "" ++ sep else "") ++ p) rest := rfl
    have h2 : (if ("" : String).length > 0 then "" ++ sep else "") ++ p = p := by simp
    rw [h1, h2, addSepPairs_pos sep p rest hp]
    cases rest with
    | nil => simp [joinSep]
    | cons q qs => simp [joinSep]

theorem foldl_writeHeaders_eq (ks : List String) (get : String → List String)
    (sb : String) :
    ks.foldl (fun sb k => writeHeaders sb k (get k)) sb =
      addSepPairs "\r\n" sb
        ((ks.map (fun k => (get k).map
          (fun s => canonicalHeaderKey k ++ ": " ++ s))).flatten) := by
  induction ks generalizing sb with
  | nil => rfl
  | cons k rest ih =>
    simp only [List.foldl_cons, List.map_cons, List.flatten_cons]
    rw [writeHeaders_eq_addSepPairs, ih]
    show addSepPairs "\r\n" _ _ = _
    unfold addSepPairs
    rw [List.foldl_append]

/-- The amended C8: `Headers.String` emits CRLF-joined canonical-case
`Name: value` header lines, keys ascending, one line per projected
element, element order preserved. -/
theorem claim_C8 :
    (∀ h : Headers, Headers.stringRepr h = joinSep "\r\n" (headerPairs h)) ∧
    (∀ h : Headers, (sortedKeys (Values.Keys h)).Sorted (fun a b => a ≤ b) ∧
      (sortedKeys (Values.Keys h)).Perm (Values.Keys h)) := by
  refine ⟨?_, fun h => ⟨sortedKeys_sorted _, sortedKeys_perm _⟩⟩
  intro h
  unfold Headers.stringRepr write headerPairs
  rw [foldl_writeHeaders_eq]
  apply addSepPairs_empty_builder
  intro p hp
  simp only [List.mem_flatten, List.mem_map] at hp
  obtain ⟨l, ⟨k, _, rfl⟩, hpl⟩ := hp
  obtain ⟨s, _, rfl⟩ := List.mem_map.mp hpl
  rw [strLength_append, strLength_append]
  have : (": " : String).length = 2 := rfl
  omega

/-- Witness for the amended C8 (the theorem is hypothesis-free; this
instantiates it at a concrete map, whose serialization is the header-line
text the library's own tests expect). -/
theorem claim_C8_witness :
    Headers.stringRepr [("msg", HVal.str "hello")] =
      joinSep "\r\n" (headerPairs [("msg", HVal.str "hello")]) ∧
    Headers.stringRepr [("msg", HVal.str "hello")] = "Msg: hello" :=
  ⟨claim_C8.1 [("msg", HVal.str "hello")], rfl⟩

/-- Counterexample to C8 as stated: the serialization of the scalar map
`{msg: hello}` is the header line `Msg: hello`, which is not JSON text —
re-parsing it as JSON yields nothing, so no re-parsed mapping can equal
the original map. -/
theorem claim_C8_counterexample :
    Headers.stringRepr [("msg", HVal.str "hello")] = "Msg: hello" ∧
    jsonParseObject (Headers.stringRepr [("msg", HVal.str "hello")]) = none ∧
    ¬ ∃ m : List (String × JVal),
        jsonParseObject (Headers.stringRepr [("msg", HVal.str "hello")]) = some m := by
  refine ⟨rfl, rfl, ?_⟩
  rintro ⟨m, hm⟩
  rw [show jsonParseObject (Headers.stringRepr [("msg", HVal.str "hello")]) = none
    from rfl] at hm
  exact Option.noConfusion hm
